import Mathlib

/-!
Verification of the build pre-flight decision engine and the downloader of
the `debrepbuild` repository.

The development shallowly embeds the Rust sources:

* `src/repo/build/mod.rs` — the `pre_flight` function (skip-vs-build decision
  over the per-package record file, record update after a successful
  `sbuild` invocation) and the extra-dependency selection inside `sbuild`.
* `src/download.rs` — the `download` function and `check_length`.

Filesystem reads/writes, the changelog inspector, git, the HTTP client and
the external `sbuild` tool are the environment: their observable results are
inputs of the embedded functions, and the record-file / destination-file
contents they produce are outputs, so that every claim about the decision
logic and the file contents is a statement about a pure Lean function.
-/

namespace Debrepbuild

/-- Decidable equality for `Except`, needed to evaluate concrete runs of the
embedded functions with `decide`. -/
instance {ε α : Type} [DecidableEq ε] [DecidableEq α] : DecidableEq (Except ε α) := fun
  | .error e, .error f =>
    if h : e = f then .isTrue (by rw [h])
    else .isFalse (by intro heq; cases heq; exact h rfl)
  | .error _, .ok _ => .isFalse (by intro h; cases h)
  | .ok _, .error _ => .isFalse (by intro h; cases h)
  | .ok a, .ok b =>
    if h : a = b then .isTrue (by rw [h])
    else .isFalse (by intro heq; cases heq; exact h rfl)

/-! ### String helpers mirroring Rust's `str::lines` and `str::split_whitespace`

Inputs considered here are ASCII without carriage returns, so Rust's
`\r\n` trimming and Unicode whitespace classes coincide with the simple
definitions below.
-/

/-- Split a character list at every newline character; the accumulator holds
the (reversed) characters of the current line. Mirrors the splitting done by
Rust's `str::lines`, before the trailing-empty-line rule is applied. -/
def splitNlAux : List Char → List Char → List String
  | [], acc => [String.mk acc.reverse]
  | c :: rest, acc =>
    if c = '\n' then String.mk acc.reverse :: splitNlAux rest []
    else splitNlAux rest (c :: acc)

/-- All newline-separated fragments of a string, including a trailing empty
fragment when the string ends in a newline. -/
def splitNl (s : String) : List String := splitNlAux s.data []

/-- Rust's `str::lines`: newline-separated lines, with no final empty line
when the string ends in a newline (and `"".lines()` is empty). -/
def rustLines (s : String) : List String :=
  let parts := splitNl s
  if parts.getLast? = some "" then parts.dropLast else parts

/-- Split a character list at whitespace, dropping empty fragments.
Mirrors Rust's `str::split_whitespace` on ASCII input. -/
def splitWsAux : List Char → List Char → List String
  | [], [] => []
  | [], acc => [String.mk acc.reverse]
  | c :: rest, acc =>
    if c.isWhitespace then
      match acc with
      | [] => splitWsAux rest []
      | _ :: _ => String.mk acc.reverse :: splitWsAux rest []
    else splitWsAux rest (c :: acc)

/-- Rust's `str::split_whitespace` collected to a list. -/
def splitWhitespace (s : String) : List String := splitWsAux s.data []

/-! ### The pre-flight decision engine (`pre_flight` in `src/repo/build/mod.rs`) -/

/-- The `BuildError` variants reachable from `pre_flight`
(`src/repo/build/mod.rs`, lines 54–86). The `why`/`package` payloads are
omitted except for `conditionalRule`, whose carried rule string is what
claim C6 is about. -/
inductive BuildErr
  /-- `BuildError::Changelog` — the changelog inspector failed with an I/O error. -/
  | changelogFail
  /-- `BuildError::NoChangelogVersion` — the changelog yielded no entry. -/
  | noChangelogVersion
  /-- `BuildError::GitCommit` — the git (branch, commit) query failed. -/
  | gitCommit
  /-- `BuildError::ConditionalRule { rule }` — unrecognized `build_on` string. -/
  | conditionalRule (rule : String)
  /-- `BuildError::Build` — `sbuild` exited non-zero. -/
  | buildFailed
  deriving DecidableEq, Repr

/-- The environment of one `pre_flight` call: the package's `build_on`
configuration, the `force` flag, the observable results of the external
collaborators (changelog inspector, git), the current content of the
package's record file (`none` = the file does not exist), and whether the
`sbuild` invocation would succeed. -/
structure Env where
  buildOn : Option String
  force : Bool
  /-- Result of `changelog(dir.join("debian/changelog"), 1)`:
  an I/O error, or the list of parsed version strings (at most one here). -/
  changelogVersions : Except Unit (List String)
  /-- Result of `git(dir)`: an error, or the current (branch, commit). -/
  gitState : Except Unit (String × String)
  /-- Content of the record file at `../record/<name>`; `none` if absent. -/
  record : Option String
  /-- Whether the `sbuild` invocation exits successfully. -/
  sbuildOk : Bool
  deriving DecidableEq, Repr

/-- Observable outcome of `pre_flight`: the returned result, the record
file's content afterwards, whether `sbuild` was invoked, and whether the
record file was read. -/
structure PFOut where
  result : Except BuildErr Unit
  record : Option String
  invoked : Bool
  recordRead : Bool
  deriving DecidableEq, Repr

/-- The skip test of the `"changelog"` strategy
(`src/repo/build/mod.rs`, lines 237–246): first record line `"changelog"`
and second record line equal to the current changelog version. -/
def changelogSkip (content version : String) : Bool :=
  match rustLines content with
  | src :: recVer :: _ => src = "changelog" && recVer = version
  | _ => false

/-- One iteration of the branch-entry loop of the `"commit"` strategy
(lines 267–277): a record line matches when its first two
whitespace-separated fields equal the current branch and commit. -/
def commitLineMatch (branch commit line : String) : Bool :=
  match splitWhitespace line with
  | b :: c :: _ => b = branch && c = commit
  | _ => false

/-- Outcome of reading an existing record under the `"commit"` strategy. -/
inductive CommitCheck
  /-- The record is the commit kind and already holds the current pair. -/
  | skip
  /-- The record is the commit kind but lacks the current pair: append. -/
  | append
  /-- The record is not the commit kind: overwrite afresh. -/
  | fresh
  deriving DecidableEq, Repr

/-- The record inspection of the `"commit"` strategy (lines 265–280). -/
def commitCheck (content branch commit : String) : CommitCheck :=
  match rustLines content with
  | src :: rest =>
    if src = "commit" then
      if rest.any (commitLineMatch branch commit) then .skip else .append
    else .fresh
  | [] => .fresh

/-- Outcome of invoking `sbuild` (line 299) and then writing the record
content `newRec` on success (lines 301–315). `didRead` records whether the
record file was read earlier. Record writes are modelled as succeeding
(`misc::write` / the append `write_all` are the final I/O steps; their own
failure mode, `RecordUpdate`, is outside every claim). -/
def invokeAndWrite (env : Env) (didRead : Bool) (newRec : Option String) : PFOut :=
  if env.sbuildOk then ⟨.ok (), newRec, true, didRead⟩
  else ⟨.error .buildFailed, env.record, true, didRead⟩

/-- Shallow embedding of `pre_flight` (`src/repo/build/mod.rs`,
lines 207–318). Matches the source's `match build_on` arms in order:
`Some("changelog")`, `Some("commit")`, `Some(rule)`, `None`.

`misc::write` is modelled from the spec as a wholesale overwrite of the
record file (its source is not part of this repository snapshot; the spec's
record-store contract states records are "overwritten wholesale"). The
append arm reproduces the source exactly: it opens the record in append
mode and writes `branch ++ " " ++ commit` with no newline separator. -/
def pre_flight (env : Env) : PFOut :=
  match env.buildOn with
  | none =>
    -- `None => None`, then `sbuild`, then `None => return Ok(())`.
    if env.sbuildOk then ⟨.ok (), env.record, true, false⟩
    else ⟨.error .buildFailed, env.record, true, false⟩
  | some strat =>
    if strat = "changelog" then
      match env.changelogVersions with
      | .error _ => ⟨.error .changelogFail, env.record, false, false⟩
      | .ok versions =>
        match versions with
        | [] => ⟨.error .noChangelogVersion, env.record, false, false⟩
        | version :: _ =>
          match env.record with
          | some content =>
            if env.force then
              -- `!force && record_path.exists()` is false: no read, build.
              invokeAndWrite env false (some ("changelog\n" ++ version))
            else if changelogSkip content version then
              ⟨.ok (), env.record, false, true⟩
            else
              invokeAndWrite env true (some ("changelog\n" ++ version))
          | none =>
            invokeAndWrite env false (some ("changelog\n" ++ version))
    else if strat = "commit" then
      match env.gitState with
      | .error _ => ⟨.error .gitCommit, env.record, false, false⟩
      | .ok (branch, commit) =>
        match env.record with
        | some content =>
          if env.force then
            invokeAndWrite env false (some ("commit\n" ++ branch ++ " " ++ commit))
          else
            match commitCheck content branch commit with
            | .skip => ⟨.ok (), env.record, false, true⟩
            | .append =>
              -- `OpenOptions::new().append(true)`: the new bytes follow the
              -- old content directly — the source writes no separator.
              invokeAndWrite env true (some (content ++ branch ++ " " ++ commit))
            | .fresh =>
              invokeAndWrite env true (some ("commit\n" ++ branch ++ " " ++ commit))
        | none =>
          invokeAndWrite env false (some ("commit\n" ++ branch ++ " " ++ commit))
    else
      ⟨.error (.conditionalRule strat), env.record, false, false⟩

/-! ### Extra-dependency selection inside `sbuild`
(`src/repo/build/mod.rs`, lines 339–348)

The source walks the pool directory (`misc::walk_debs`), keeps the entries
`misc::match_deb` scores against the configured patterns, sorts the
surviving `(package, score)` pairs ascending by score with Rust's stable
`sort_by`, and emits one `--extra-package=` argument per pair in that
order. `walk_debs` and `match_deb` live outside this snapshot, so the pool
listing is taken as an input list and the scorer as an arbitrary function
parameter; the selection logic itself is embedded exactly. Rust's
`sort_by` is a stable sort, embedded here as a stable insertion sort. -/

/-- Stable ascending insertion by score (the `usize` second component):
the new element goes before the first element whose score is not smaller,
so elements already in the list keep their position relative to it. -/
def insertByScore (x : String × Nat) : List (String × Nat) → List (String × Nat)
  | [] => [x]
  | y :: ys => if y.2 < x.2 then y :: insertByScore x ys else x :: y :: ys

/-- Stable sort ascending by score: the embedding of
`temp.sort_by(|a, b| a.1.cmp(&b.1))` (a stable sort in Rust). -/
def sortByScore : List (String × Nat) → List (String × Nat)
  | [] => []
  | x :: xs => insertByScore x (sortByScore xs)

/-- The selection of `(package, score)` pairs:
`walk_debs(pool).flat_map(|deb| match_deb(&deb, depends)).collect()`
followed by the stable ascending sort. `matchDeb` stands for
`misc::match_deb` applied to the fixed pattern list. -/
def selectDeps (matchDeb : String → Option (String × Nat)) (pool : List String) :
    List (String × Nat) :=
  sortByScore (pool.filterMap matchDeb)

/-- The `--extra-package=` argument list handed to `sbuild`, one argument
per surviving pool entry, in selection order. -/
def extraPackageArgs (matchDeb : String → Option (String × Nat)) (pool : List String) :
    List String :=
  (selectDeps matchDeb pool).map (fun p => "--extra-package=" ++ p.1)

/-! ### The downloader (`src/download.rs`) -/

/-- `check_length` (`src/download.rs`, lines 100–106): the `ContentLength`
header, taken as 0 when absent, compared with the existing file's length. -/
def check_length (contentLength : Option Nat) (compared : Nat) : Bool :=
  contentLength.getD 0 = compared

/-- The `DownloadError` variants of `src/download.rs` (payloads omitted). -/
inductive DlError
  /-- `DownloadError::Request` — an HTTP request failed. -/
  | request
  /-- `DownloadError::File` — opening/creating the destination failed. -/
  | file
  deriving DecidableEq, Repr

/-- `DownloadResult` of `src/download.rs`. -/
inductive DlResult
  /-- `DownloadResult::AlreadyExists` — nothing fetched. -/
  | alreadyExists
  /-- `DownloadResult::Downloaded(n)` — `n` bytes copied. -/
  | downloaded (n : Nat)
  deriving DecidableEq, Repr

/-- Environment of one `download` call: the destination file's content
(`none` = the file does not exist), whether `File::open(..).metadata()`
succeeds on it (on failure the length is taken as 0, line 58), the HEAD
probe's result (an error, or a response with an optional `ContentLength`
header), whether `File::create` (and `create_dir_all`) succeeds, and the
GET request's result (an error, or the fetched body). -/
structure DlEnv where
  dest : Option String
  metaOk : Bool
  headResult : Except Unit (Option Nat)
  createOk : Bool
  getResult : Except Unit String
  deriving DecidableEq, Repr

/-- The GET phase of `download` (`src/download.rs`, lines 82–96), entered
with the destination already truncated to empty by `File::create`. Returns
the call's result paired with the destination file's content afterwards. -/
def downloadGet (env : DlEnv) : Except DlError DlResult × Option String :=
  match env.getResult with
  | .error _ => (.error .request, some "")
  | .ok body => (.ok (.downloaded body.length), some body)

/-- Shallow embedding of `download` (`src/download.rs`, lines 48–97).
Returns the result together with the destination file's content after the
call. When the destination exists, its length (0 if unreadable) is compared
by `check_length` against a fresh HEAD probe; equality short-circuits with
`AlreadyExists` and no GET. Otherwise `File::create` truncates the
destination before the GET is issued. -/
def download (env : DlEnv) : Except DlError DlResult × Option String :=
  match env.dest with
  | some content =>
    let capacity := if env.metaOk then content.length else 0
    match env.headResult with
    | .error _ => (.error .request, env.dest)
    | .ok contentLength =>
      if check_length contentLength capacity then
        (.ok .alreadyExists, env.dest)
      else if env.createOk then
        downloadGet env
      else
        (.error .file, env.dest)
  | none =>
    if env.createOk then downloadGet env
    else (.error .file, env.dest)

/-! ## Helper lemmas about the stable score sort -/

/-- Membership in an insertion: exactly the inserted element plus the old ones. -/
theorem mem_insertByScore {y x : String × Nat} {l : List (String × Nat)} :
    y ∈ insertByScore x l ↔ y = x ∨ y ∈ l := by
  induction l with
  | nil => simp [insertByScore]
  | cons z zs ih =>
    by_cases h : z.2 < x.2
    · simp only [insertByScore, if_pos h, List.mem_cons, ih]
      tauto
    · simp only [insertByScore, if_neg h, List.mem_cons]

/-- Inserting into a list sorted ascending by score keeps it sorted. -/
theorem insertByScore_sorted {x : String × Nat} {l : List (String × Nat)}
    (h : l.Pairwise (fun a b => a.2 ≤ b.2)) :
    (insertByScore x l).Pairwise (fun a b => a.2 ≤ b.2) := by
  induction l with
  | nil => simp [insertByScore]
  | cons z zs ih =>
    rw [List.pairwise_cons] at h
    by_cases hz : z.2 < x.2
    · rw [insertByScore, if_pos hz, List.pairwise_cons]
      refine ⟨fun b hb => ?_, ih h.2⟩
      rcases mem_insertByScore.1 hb with hbx | hbz
      · exact hbx ▸ Nat.le_of_lt hz
      · exact h.1 b hbz
    · rw [insertByScore, if_neg hz, List.pairwise_cons]
      refine ⟨fun b hb => ?_, List.pairwise_cons.2 h⟩
      rcases List.mem_cons.1 hb with hbz | hbzs
      · exact hbz ▸ Nat.le_of_not_lt hz
      · exact Nat.le_trans (Nat.le_of_not_lt hz) (h.1 b hbzs)

/-- The stable sort produces a list sorted ascending by score. -/
theorem sortByScore_sorted (l : List (String × Nat)) :
    (sortByScore l).Pairwise (fun a b => a.2 ≤ b.2) := by
  induction l with
  | nil => exact List.Pairwise.nil
  | cons x xs ih => exact insertByScore_sorted ih

/-- Filtering an insertion to one score value: the inserted element lands in
front of the equally-scored ones already present, because the insertion only
walks past strictly smaller scores. -/
theorem filter_insertByScore (x : String × Nat) (l : List (String × Nat)) (s : Nat) :
    (insertByScore x l).filter (fun p => p.2 == s) =
      if x.2 = s then x :: l.filter (fun p => p.2 == s)
      else l.filter (fun p => p.2 == s) := by
  induction l with
  | nil =>
    by_cases hx : x.2 = s <;> simp [insertByScore, List.filter_cons, beq_iff_eq, hx]
  | cons y ys ih =>
    by_cases hy : y.2 < x.2
    · rw [insertByScore, if_pos hy]
      by_cases hx : x.2 = s
      · have hys : ¬ y.2 = s := by omega
        simp [List.filter_cons, hys, ih, hx]
      · by_cases hys : y.2 = s <;> simp [List.filter_cons, hys, ih, hx]
    · rw [insertByScore, if_neg hy]
      by_cases hx : x.2 = s <;> simp [List.filter_cons, hx]

/-- Stability: for every score value, the sorted list restricted to that
score is exactly the input restricted to that score, in input order. -/
theorem filter_sortByScore (l : List (String × Nat)) (s : Nat) :
    (sortByScore l).filter (fun p => p.2 == s) = l.filter (fun p => p.2 == s) := by
  induction l with
  | nil => rfl
  | cons x xs ih =>
    rw [sortByScore, filter_insertByScore]
    by_cases hx : x.2 = s <;> simp [List.filter_cons, hx, ih]

/-- The stable sort is a permutation of its input. -/
theorem sortByScore_perm (l : List (String × Nat)) : (sortByScore l).Perm l := by
  induction l with
  | nil => exact List.Perm.refl _
  | cons x xs ih =>
    have hins : ∀ (m : List (String × Nat)), (insertByScore x m).Perm (x :: m) := by
      intro m
      induction m with
      | nil => exact List.Perm.refl _
      | cons z zs ihm =>
        by_cases hz : z.2 < x.2
        · rw [insertByScore, if_pos hz]
          exact ((ihm.cons z).trans (List.Perm.swap x z zs))
        · rw [insertByScore, if_neg hz]
    exact (hins (sortByScore xs)).trans (ih.cons x)

/-! ## Helper lemmas about `rustLines` and the skip tests -/

/-- Splitting a newline-free fragment yields one fragment. -/
theorem splitNlAux_no_nl (l acc : List Char) (h : '\n' ∉ l) :
    splitNlAux l acc = [String.mk (acc.reverse ++ l)] := by
  induction l generalizing acc with
  | nil => simp [splitNlAux]
  | cons c cs ih =>
    simp only [List.mem_cons, not_or] at h
    have hc : ¬ c = '\n' := fun hcc => h.1 hcc.symm
    rw [splitNlAux, if_neg hc, ih (c :: acc) h.2]
    simp

/-- Splitting a string that starts with a newline-free fragment followed by a
newline: the fragment is the first line, the rest is split separately. -/
theorem splitNlAux_firstLine (l1 l2 acc : List Char) (h : '\n' ∉ l1) :
    splitNlAux (l1 ++ '\n' :: l2) acc =
      String.mk (acc.reverse ++ l1) :: splitNlAux l2 [] := by
  induction l1 generalizing acc with
  | nil => simp [splitNlAux]
  | cons c cs ih =>
    simp only [List.mem_cons, not_or] at h
    have hc : ¬ c = '\n' := fun hcc => h.1 hcc.symm
    rw [List.cons_append, splitNlAux, if_neg hc, ih (c :: acc) h.2]
    simp

/-- The lines of a freshly written changelog record `"changelog\n" ++ v`,
for a version `v` that is a single non-empty line. -/
theorem rustLines_changelog_record (v : String) (hv : v ≠ "") (hnl : '\n' ∉ v.data) :
    rustLines ("changelog\n" ++ v) = ["changelog", v] := by
  have hdata : ("changelog\n" ++ v).data = "changelog".data ++ '\n' :: v.data := by
    rw [String.data_append]
    rfl
  rw [rustLines, splitNl, hdata, splitNlAux_firstLine _ _ _ (by decide),
    splitNlAux_no_nl _ _ hnl]
  have hmk : String.mk v.data = v := rfl
  have hvne : ¬ (String.mk v.data = "") := by rw [hmk]; exact hv
  simp [hmk, hvne]

/-- The changelog skip test succeeds when the record's first line is
`"changelog"` and its second line is the current version. -/
theorem changelogSkip_true {content version : String}
    (h1 : (rustLines content).head? = some "changelog")
    (h2 : (rustLines content)[1]? = some version) :
    changelogSkip content version = true := by
  unfold changelogSkip
  cases hls : rustLines content with
  | nil => rw [hls] at h1; cases h1
  | cons a rest =>
    cases rest with
    | nil => rw [hls] at h2; simp at h2
    | cons b rest2 =>
      rw [hls] at h1 h2
      simp only [List.head?_cons, Option.some.injEq] at h1
      simp only [List.getElem?_cons_succ, List.getElem?_cons_zero, Option.some.injEq] at h2
      simp [h1, h2]

/-- The changelog skip test fails when the recorded version (the record's
second line) differs from the current version. -/
theorem changelogSkip_false {content v version : String}
    (hrec : (rustLines content)[1]? = some v) (hne : v ≠ version) :
    changelogSkip content version = false := by
  unfold changelogSkip
  cases hls : rustLines content with
  | nil => rfl
  | cons a rest =>
    cases rest with
    | nil => rfl
    | cons b rest2 =>
      rw [hls] at hrec
      simp only [List.getElem?_cons_succ, List.getElem?_cons_zero, Option.some.injEq] at hrec
      subst hrec
      simp [hne]

/-- The commit record inspection returns `skip` when the first line is
`"commit"` and some later line's first two fields are the current pair. -/
theorem commitCheck_skip {content b c : String}
    (h1 : (rustLines content).head? = some "commit")
    (h2 : (rustLines content).tail.any (commitLineMatch b c) = true) :
    commitCheck content b c = CommitCheck.skip := by
  unfold commitCheck
  cases hls : rustLines content with
  | nil => rw [hls] at h1; cases h1
  | cons a rest =>
    rw [hls] at h1 h2
    simp only [List.head?_cons, Option.some.injEq] at h1
    simp only [List.tail_cons] at h2
    simp [h1, h2]

/-! ## Claim theorems -/

/-- Claim C1: with strategy `"changelog"`, `force = false`, and an existing
record whose first line is `"changelog"` and whose second line equals the
current changelog version, `pre_flight` returns success without invoking
`sbuild`, without writing the record, having read it. -/
theorem changelog_matching_record_skips (env : Env) (version : String)
    (vs : List String) (content : String)
    (hb : env.buildOn = some "changelog")
    (hf : env.force = false)
    (hv : env.changelogVersions = Except.ok (version :: vs))
    (hr : env.record = some content)
    (h1 : (rustLines content).head? = some "changelog")
    (h2 : (rustLines content)[1]? = some version) :
    pre_flight env = ⟨Except.ok (), env.record, false, true⟩ := by
  have hskip := changelogSkip_true h1 h2
  simp [pre_flight, hb, hv, hr, hf, hskip]

/-- Witness for C1: the spec's Example B — version `"1.2.3"`, record
`"changelog\n1.2.3"`, not forced: skipped, record untouched. -/
theorem changelog_matching_record_skips_witness :
    pre_flight
        { buildOn := some "changelog", force := false,
          changelogVersions := Except.ok ["1.2.3"], gitState := Except.error (),
          record := some "changelog\n1.2.3", sbuildOk := true } =
      ⟨Except.ok (), some "changelog\n1.2.3", false, true⟩ :=
  changelog_matching_record_skips _ "1.2.3" [] "changelog\n1.2.3"
    rfl rfl rfl rfl (by decide) (by decide)

/-- Claim C4: with strategy `"commit"`, `force = false`, and an existing
record whose first line is `"commit"` and that contains a line whose first
two whitespace-separated fields are the current branch and commit,
`pre_flight` returns success without invoking `sbuild` and without
modifying the record. -/
theorem commit_matching_record_skips (env : Env) (b c content : String)
    (hb : env.buildOn = some "commit")
    (hf : env.force = false)
    (hg : env.gitState = Except.ok (b, c))
    (hr : env.record = some content)
    (h1 : (rustLines content).head? = some "commit")
    (h2 : (rustLines content).tail.any (commitLineMatch b c) = true) :
    pre_flight env = ⟨Except.ok (), env.record, false, true⟩ := by
  have hck := commitCheck_skip h1 h2
  simp [pre_flight, hb, hf, hg, hr, hck]

/-- Witness for C4: record `"commit\nmain abcd"`, workspace at
`(main, abcd)`, not forced: skipped, record untouched. -/
theorem commit_matching_record_skips_witness :
    pre_flight
        { buildOn := some "commit", force := false,
          changelogVersions := Except.error (), gitState := Except.ok ("main", "abcd"),
          record := some "commit\nmain abcd", sbuildOk := true } =
      ⟨Except.ok (), some "commit\nmain abcd", false, true⟩ :=
  commit_matching_record_skips _ "main" "abcd" "commit\nmain abcd"
    rfl rfl rfl rfl (by decide) (by decide)

/-- Claim C5: with strategy `"changelog"` and a current version `v2` that
differs from the recorded version `v` (the record's second line),
`pre_flight` invokes `sbuild` and, on success, overwrites the record
wholesale with `"changelog\n" ++ v2`, whose lines are exactly
`["changelog", v2]` — the old version `v` is gone. -/
theorem changelog_version_change_rebuilds (env : Env) (v2 : String)
    (vs : List String) (v content : String)
    (hb : env.buildOn = some "changelog")
    (hv : env.changelogVersions = Except.ok (v2 :: vs))
    (hr : env.record = some content)
    (hs : env.sbuildOk = true)
    (hrec : (rustLines content)[1]? = some v)
    (hne : v ≠ v2)
    (hv2 : v2 ≠ "")
    (hnl : '\n' ∉ v2.data)
    (hvc : v ≠ "changelog") :
    (pre_flight env).result = Except.ok ()
      ∧ (pre_flight env).invoked = true
      ∧ (pre_flight env).record = some ("changelog\n" ++ v2)
      ∧ rustLines ("changelog\n" ++ v2) = ["changelog", v2]
      ∧ v ∉ rustLines ("changelog\n" ++ v2) := by
  have hlines := rustLines_changelog_record v2 hv2 hnl
  have hnotmem : v ∉ rustLines ("changelog\n" ++ v2) := by
    rw [hlines]
    simp [hvc, hne]
  have hskip := changelogSkip_false hrec hne
  have hcore : (pre_flight env).result = Except.ok ()
      ∧ (pre_flight env).invoked = true
      ∧ (pre_flight env).record = some ("changelog\n" ++ v2) := by
    cases hforce : env.force with
    | true => simp [pre_flight, hb, hv, hr, hforce, invokeAndWrite, hs]
    | false => simp [pre_flight, hb, hv, hr, hforce, hskip, invokeAndWrite, hs]
  exact ⟨hcore.1, hcore.2.1, hcore.2.2, hlines, hnotmem⟩

/-- Witness for C5: recorded version `"1.2.3"`, current version `"2.0"`:
rebuilt and the record becomes `"changelog\n2.0"`, whose lines no longer
hold `"1.2.3"`. -/
theorem changelog_version_change_rebuilds_witness :
    (pre_flight
        { buildOn := some "changelog", force := false,
          changelogVersions := Except.ok ["2.0"], gitState := Except.error (),
          record := some "changelog\n1.2.3", sbuildOk := true }).result = Except.ok ()
      ∧ (pre_flight
        { buildOn := some "changelog", force := false,
          changelogVersions := Except.ok ["2.0"], gitState := Except.error (),
          record := some "changelog\n1.2.3", sbuildOk := true }).invoked = true
      ∧ (pre_flight
        { buildOn := some "changelog", force := false,
          changelogVersions := Except.ok ["2.0"], gitState := Except.error (),
          record := some "changelog\n1.2.3", sbuildOk := true }).record
          = some ("changelog\n" ++ "2.0")
      ∧ rustLines ("changelog\n" ++ "2.0") = ["changelog", "2.0"]
      ∧ "1.2.3" ∉ rustLines ("changelog\n" ++ "2.0") :=
  changelog_version_change_rebuilds _ "2.0" [] "1.2.3" "changelog\n1.2.3"
    rfl rfl rfl rfl (by decide) (by decide) (by decide) (by decide) (by decide)

/-- Claim C6: an unrecognized strategy string makes `pre_flight` fail with
`ConditionalRule` carrying exactly that string, with `sbuild` not invoked
and the record neither read nor written. -/
theorem unrecognized_rule_fails (env : Env) (s : String)
    (hb : env.buildOn = some s)
    (h1 : s ≠ "changelog")
    (h2 : s ≠ "commit") :
    pre_flight env = ⟨Except.error (BuildErr.conditionalRule s), env.record, false, false⟩ := by
  simp [pre_flight, hb, h1, h2]

/-- Witness for C6: the spec's strategy string `"magic"`. -/
theorem unrecognized_rule_fails_witness :
    pre_flight
        { buildOn := some "magic", force := false,
          changelogVersions := Except.error (), gitState := Except.error (),
          record := some "changelog\n1.2.3", sbuildOk := true } =
      ⟨Except.error (BuildErr.conditionalRule "magic"), some "changelog\n1.2.3", false, false⟩ :=
  unrecognized_rule_fails _ "magic" rfl (by decide) (by decide)

/-- Claim C2 (code bug): at the spec's Example C — record `"commit\nmain abcd"`,
workspace at `(dev, ef01)`, not forced, `sbuild` succeeding — the code appends
`"dev ef01"` with no newline separator, so the record becomes
`"commit\nmain abcddev ef01"`, not the claimed `"commit\nmain abcd\ndev ef01"`;
its lines are `["commit", "main abcddev ef01"]`, so the prior pair line
`"main abcd"` is no longer present and the code's own line-based skip check
can never find either pair again. -/
theorem commit_append_drops_newline :
    pre_flight
        { buildOn := some "commit", force := false,
          changelogVersions := Except.error (), gitState := Except.ok ("dev", "ef01"),
          record := some "commit\nmain abcd", sbuildOk := true } =
      ⟨Except.ok (), some "commit\nmain abcddev ef01", true, true⟩
    ∧ some "commit\nmain abcddev ef01" ≠ some "commit\nmain abcd\ndev ef01"
    ∧ rustLines "commit\nmain abcddev ef01" = ["commit", "main abcddev ef01"]
    ∧ "main abcd" ∉ rustLines "commit\nmain abcddev ef01" := by
  refine ⟨by decide, by decide, by decide, by decide⟩

/-- Counterexample to claim C3 as stated: with `force = true`, strategy
`"commit"`, an existing record `"commit\nmain abcd"` and the workspace at
`(dev, ef01)`, a successful build overwrites the record with
`"commit\ndev ef01"` — the prior pair line `"main abcd"` is not preserved,
contradicting "append the pair preserving all prior pairs". -/
theorem force_commit_overwrites_counterexample :
    pre_flight
        { buildOn := some "commit", force := true,
          changelogVersions := Except.error (), gitState := Except.ok ("dev", "ef01"),
          record := some "commit\nmain abcd", sbuildOk := true } =
      ⟨Except.ok (), some "commit\ndev ef01", true, false⟩
    ∧ "main abcd" ∉ rustLines "commit\ndev ef01" := by
  refine ⟨by decide, by decide⟩

/-- Claim C3 (amended): with `force = true` the skip check is bypassed and
`sbuild` is always invoked; on success the record is overwritten wholesale —
with `"changelog\n" ++ version` under `"changelog"`, and with
`"commit\n" ++ branch ++ " " ++ commit` under `"commit"` (prior pairs are
not preserved, because the append mode is only chosen during the non-forced
record read, which `force` skips). -/
theorem force_invokes_and_overwrites (env : Env) (v b c : String) (vs : List String)
    (hf : env.force = true)
    (hs : env.sbuildOk = true) :
    (env.buildOn = some "changelog" → env.changelogVersions = Except.ok (v :: vs) →
      pre_flight env = ⟨Except.ok (), some ("changelog\n" ++ v), true, false⟩)
    ∧ (env.buildOn = some "commit" → env.gitState = Except.ok (b, c) →
      pre_flight env = ⟨Except.ok (), some ("commit\n" ++ b ++ " " ++ c), true, false⟩) := by
  constructor
  · intro hb hv
    cases hr : env.record with
    | some content => simp [pre_flight, hb, hv, hr, hf, invokeAndWrite, hs]
    | none => simp [pre_flight, hb, hv, hr, invokeAndWrite, hs]
  · intro hb hg
    cases hr : env.record with
    | some content => simp [pre_flight, hb, hg, hr, hf, invokeAndWrite, hs]
    | none => simp [pre_flight, hb, hg, hr, invokeAndWrite, hs]

/-- Witness for C3 (amended): forced rebuild at `(dev, ef01)` over the
record `"commit\nmain abcd"`: invoked, record overwritten. -/
theorem force_invokes_and_overwrites_witness :
    pre_flight
        { buildOn := some "commit", force := true,
          changelogVersions := Except.error (), gitState := Except.ok ("dev", "ef01"),
          record := some "commit\nmain abcd", sbuildOk := true } =
      ⟨Except.ok (), some ("commit\n" ++ "dev" ++ " " ++ "ef01"), true, false⟩ :=
  (force_invokes_and_overwrites _ "x" "dev" "ef01" [] rfl rfl).2 rfl rfl

/-- Claim C7: the extra-dependency selection is a pure function of the pool
listing and the scorer (so two runs over unchanged inputs produce the same
argument list), its output is sorted ascending by match score, and ties are
broken stably: for every score value, the selected entries with that score
are exactly the qualifying pool entries with that score, in pool order. -/
theorem dep_selection_deterministic_sorted_stable
    (matchDeb : String → Option (String × Nat)) (pool pool2 : List String)
    (hp : pool2 = pool) :
    extraPackageArgs matchDeb pool2 = extraPackageArgs matchDeb pool
    ∧ (selectDeps matchDeb pool).Pairwise (fun a b => a.2 ≤ b.2)
    ∧ (∀ s : Nat, (selectDeps matchDeb pool).filter (fun p => p.2 == s)
        = (pool.filterMap matchDeb).filter (fun p => p.2 == s))
    ∧ (selectDeps matchDeb pool).Perm (pool.filterMap matchDeb) := by
  subst hp
  exact ⟨rfl, sortByScore_sorted _, fun s => filter_sortByScore _ s, sortByScore_perm _⟩

/-- Witness for C7: a concrete pool where `b` (score 1) outranks `a`
(score 2) and the two score-2 entries `a`, `c` keep their pool order. -/
theorem dep_selection_deterministic_sorted_stable_witness :
    extraPackageArgs
        (fun d => if d = "skipped" then none else some (d, if d = "b" then 1 else 2))
        ["a", "b", "skipped", "c"]
      = extraPackageArgs
        (fun d => if d = "skipped" then none else some (d, if d = "b" then 1 else 2))
        ["a", "b", "skipped", "c"]
    ∧ (selectDeps
        (fun d => if d = "skipped" then none else some (d, if d = "b" then 1 else 2))
        ["a", "b", "skipped", "c"]).Pairwise (fun a b => a.2 ≤ b.2)
    ∧ (∀ s : Nat, (selectDeps
        (fun d => if d = "skipped" then none else some (d, if d = "b" then 1 else 2))
        ["a", "b", "skipped", "c"]).filter (fun p => p.2 == s)
        = ((["a", "b", "skipped", "c"] : List String).filterMap
            (fun d => if d = "skipped" then none else some (d, if d = "b" then 1 else 2))).filter
            (fun p => p.2 == s))
    ∧ (selectDeps
        (fun d => if d = "skipped" then none else some (d, if d = "b" then 1 else 2))
        ["a", "b", "skipped", "c"]).Perm
        ((["a", "b", "skipped", "c"] : List String).filterMap
          (fun d => if d = "skipped" then none else some (d, if d = "b" then 1 else 2))) :=
  dep_selection_deterministic_sorted_stable _ _ _ rfl

/-- Counterexample to claim C8 as stated: when the changelog cannot be read
(the inspector returns an I/O error), `pre_flight` fails with the
`Changelog` error, not with `NoChangelogVersion`. -/
theorem changelog_read_failure_counterexample :
    (pre_flight
        { buildOn := some "changelog", force := false,
          changelogVersions := Except.error (), gitState := Except.error (),
          record := none, sbuildOk := true }).result = Except.error BuildErr.changelogFail
    ∧ (pre_flight
        { buildOn := some "changelog", force := false,
          changelogVersions := Except.error (), gitState := Except.error (),
          record := none, sbuildOk := true }).result
        ≠ Except.error BuildErr.noChangelogVersion := by
  refine ⟨by decide, by decide⟩

/-- Claim C8 (amended): with strategy `"changelog"`, when the changelog
yields no parseable entry the build fails with `NoChangelogVersion`, and
when the changelog cannot be read it fails with the `Changelog` error; in
both cases `sbuild` is not invoked and the record is untouched. -/
theorem changelog_unavailable_fails (env : Env)
    (hb : env.buildOn = some "changelog") :
    (env.changelogVersions = Except.ok [] →
      pre_flight env = ⟨Except.error BuildErr.noChangelogVersion, env.record, false, false⟩)
    ∧ (∀ e : Unit, env.changelogVersions = Except.error e →
      pre_flight env = ⟨Except.error BuildErr.changelogFail, env.record, false, false⟩) := by
  constructor
  · intro hv
    simp [pre_flight, hb, hv]
  · intro e hv
    simp [pre_flight, hb, hv]

/-- Witness for C8 (amended): an unreadable changelog yields the
`Changelog` error with no invocation and no record write. -/
theorem changelog_unavailable_fails_witness :
    pre_flight
        { buildOn := some "changelog", force := false,
          changelogVersions := Except.error (), gitState := Except.error (),
          record := none, sbuildOk := true } =
      ⟨Except.error BuildErr.changelogFail, none, false, false⟩ :=
  (changelog_unavailable_fails _ rfl).2 () rfl

/-- The GET phase never reports `AlreadyExists`: that result only arises
from the HEAD short-circuit. -/
theorem downloadGet_ne_alreadyExists (env : DlEnv) :
    (downloadGet env).1 ≠ Except.ok DlResult.alreadyExists := by
  cases hg : env.getResult <;> simp [downloadGet, hg]

/-- Counterexample to claim C9 as stated: at a destination that exists with
length 0 while the HEAD probe succeeds but reports no content-length at
all, `download` still returns `AlreadyExists` — the code substitutes 0 for
a missing `ContentLength` header, so the skip does not happen "exactly
when" a reported length matches the local length. -/
theorem download_skip_iff_counterexample :
    ¬ (∀ env : DlEnv, (download env).1 = Except.ok DlResult.alreadyExists ↔
        ∃ content n, env.dest = some content ∧ env.headResult = Except.ok (some n) ∧
          content.length = n) := by
  intro h
  obtain ⟨content, n, hd, hh, hlen⟩ :=
    (h ⟨some "", true, Except.ok none, true, Except.error ()⟩).mp (by decide)
  simp at hh

/-- Claim C9 (amended): `download` returns `AlreadyExists` (skipping the
GET) exactly when the destination file exists, the HEAD probe succeeds, and
`check_length` holds: the probe's content-length, taken as 0 when the
header is absent, equals the local file's length, taken as 0 when the file
is unreadable. -/
theorem download_skip_iff (env : DlEnv) :
    (download env).1 = Except.ok DlResult.alreadyExists ↔
      ∃ content clen, env.dest = some content ∧ env.headResult = Except.ok clen ∧
        check_length clen (if env.metaOk then content.length else 0) = true := by
  constructor
  · intro h
    cases hd : env.dest with
    | none =>
      exfalso
      simp only [download, hd] at h
      cases hc : env.createOk with
      | true => rw [hc] at h; exact downloadGet_ne_alreadyExists env (by simpa using h)
      | false => rw [hc] at h; simp at h
    | some content =>
      simp only [download, hd] at h
      cases hh : env.headResult with
      | error e => simp [hh] at h
      | ok clen =>
        simp only [hh] at h
        by_cases hcl : check_length clen (if env.metaOk then content.length else 0) = true
        · exact ⟨content, clen, rfl, rfl, hcl⟩
        · exfalso
          rw [Bool.not_eq_true] at hcl
          simp only [hcl, Bool.false_eq_true, if_false] at h
          cases hc : env.createOk with
          | true =>
            simp only [hc, if_true] at h
            exact downloadGet_ne_alreadyExists env h
          | false => simp [hc] at h
  · rintro ⟨content, clen, hd, hh, hcl⟩
    simp [download, hd, hh, hcl]

/-- Claim C10: when the destination exists but `check_length` fails, the
destination is truncated by `File::create` before the GET is issued; if the
GET then fails with a `Request` error, the destination holds the empty
content — the previously cached bytes are gone. -/
theorem download_mismatch_get_error_loses_cache (env : DlEnv)
    (content : String) (clen : Option Nat)
    (hd : env.dest = some content)
    (hh : env.headResult = Except.ok clen)
    (hcl : check_length clen (if env.metaOk then content.length else 0) = false)
    (hcr : env.createOk = true)
    (hg : env.getResult = Except.error ())
    (hne : content ≠ "") :
    download env = (Except.error DlError.request, some "")
    ∧ (download env).2 ≠ env.dest := by
  have hrun : download env = (Except.error DlError.request, some "") := by
    simp [download, hd, hh, hcl, hcr, downloadGet, hg]
  refine ⟨hrun, ?_⟩
  rw [hrun, hd]
  simp only [ne_eq, Option.some.injEq]
  exact fun hEq => hne hEq.symm

/-- Witness for C10: a cached file `"cached"` (length 6) against a reported
content-length of 999: the file is truncated, the GET fails, and the cache
is lost. -/
theorem download_mismatch_get_error_loses_cache_witness :
    download ⟨some "cached", true, Except.ok (some 999), true, Except.error ()⟩ =
      (Except.error DlError.request, some "")
    ∧ (download ⟨some "cached", true, Except.ok (some 999), true, Except.error ()⟩).2
        ≠ some "cached" :=
  download_mismatch_get_error_loses_cache _ "cached" (some 999)
    rfl rfl (by decide) rfl rfl (by decide)

end Debrepbuild
